import Mathlib

/-!
Verification of the server-function demo application (`src/app.rs`).

The development shallowly embeds the parts of the program that the claims
are about: the validated uppercase operation (`ascii_uppercase` and
`ascii_uppercase_inner`), the custom error enums (`InvalidArgument`,
`MyErrors`, the library error enum `ServerFnErrorErr`), the `add_row`
server function with its `AtomicU8` request counter and mutex-guarded
`ROWS` list, the custom TOML wire format (`Toml`, `TomlEncoded` with its
four codec directions), and the header-injecting `CustomClient`.

Rust strings are modelled as lists of Unicode scalar values (`List Char`,
exactly the chars of a Rust `String`); `String::len` is the UTF-8 byte
count, modelled by summing per-char UTF-8 sizes.
-/

namespace ServerFnsDemo

/-- A Rust `String`: a sequence of Unicode scalar values. -/
abbrev RStr := List Char

/-- UTF-8 byte size of one scalar value, as in Rust `char::len_utf8`. -/
def lenUtf8 (c : Char) : Nat :=
  if c.toNat < 0x80 then 1
  else if c.toNat < 0x800 then 2
  else if c.toNat < 0x10000 then 3
  else 4

/-- Rust `String::len`: the UTF-8 byte length of the string. -/
def rustLen (s : RStr) : Nat := (s.map lenUtf8).sum

/-- Rust `str::is_ascii`: every scalar value is below `0x80`. -/
def rustIsAscii (s : RStr) : Bool := s.all fun c => c.toNat < 0x80

/-- Rust `u8::to_ascii_uppercase` lifted to scalar values: ASCII lowercase
letters are shifted down by 32, everything else is unchanged. -/
def asciiUpChar (c : Char) : Char :=
  if 0x61 ≤ c.toNat ∧ c.toNat ≤ 0x7a then Char.ofNat (c.toNat - 32) else c

/-- Rust `str::to_ascii_uppercase`. -/
def to_ascii_uppercase (s : RStr) : RStr := s.map asciiUpChar

/-- `enum InvalidArgument` from `src/app.rs`. -/
inductive InvalidArgument
  | TooShort
  | TooLong
  | NotAscii
deriving DecidableEq, Repr

/-- `fn ascii_uppercase_inner` from `src/app.rs`: length window 5..=15 in
bytes, then the ASCII check, then uppercasing. -/
def ascii_uppercase_inner (text : RStr) : Except InvalidArgument RStr :=
  if rustLen text < 5 then .error .TooShort
  else if rustLen text > 15 then .error .TooLong
  else if rustIsAscii text then .ok (to_ascii_uppercase text)
  else .error .NotAscii

/-- The variants of the server-function library error enum
`ServerFnErrorErr` that this application can produce. -/
inductive ServerFnErrorErr
  | Registration (msg : RStr)
  | Request (msg : RStr)
  | Response (msg : RStr)
  | ServerError (msg : RStr)
  | Deserialization (msg : RStr)
  | Serialization (msg : RStr)
  | Args (msg : RStr)
  | MissingArg (msg : RStr)
deriving DecidableEq, Repr

/-- Alias so constructor names of `MyErrors` can shadow the type name. -/
abbrev InvalidArg := InvalidArgument

deriving instance DecidableEq for Except

/-- `enum MyErrors` from `src/app.rs`. -/
inductive MyErrors
  | InvalidArgument (e : InvalidArg)
  | ServerFnError (e : ServerFnErrorErr)
  | Other (msg : RStr)
deriving DecidableEq, Repr

/-- `impl From<InvalidArgument> for MyErrors`. -/
def MyErrors.fromInvalidArgument (e : InvalidArg) : MyErrors :=
  .InvalidArgument e

/-- `impl From<String> for MyErrors`. -/
def MyErrors.fromString (msg : RStr) : MyErrors := .Other msg

/-- `fn other_error` from `src/app.rs`: always succeeds. -/
def other_error : Except RStr Unit := .ok ()

/-- `fn ascii_uppercase` from `src/app.rs`: propagates `other_error` and
`ascii_uppercase_inner` failures into `MyErrors` via the `From` impls. -/
def ascii_uppercase (text : RStr) : Except MyErrors RStr :=
  match other_error with
  | .error e => .error (MyErrors.fromString e)
  | .ok () =>
    match ascii_uppercase_inner text with
    | .error e => .error (MyErrors.fromInvalidArgument e)
    | .ok s => .ok s

/-- Server-side state touched by `add_row`: the `AtomicU8` counter `N` and
the mutex-guarded `ROWS` list. -/
structure DbState where
  n : Nat
  rows : List RStr
deriving DecidableEq, Repr

/-- The message of the simulated database error in `add_row`. -/
def dbErrorMsg : RStr :=
  "Oh no! Couldn".data ++ (Char.ofNat 39 :: "t add to database!".data)

/-- `fn add_row` from `src/app.rs`: fetch-and-increment the `AtomicU8`
counter (wrapping at 256); if the fetched value is 2 mod 3, fail with the
simulated database error, otherwise push the text onto `ROWS` and return
the new length. -/
def add_row (s : DbState) (text : RStr) :
    DbState × Except ServerFnErrorErr Nat :=
  let nthRun := s.n
  let n := (s.n + 1) % 256
  if nthRun % 3 == 2 then
    ({ s with n := n }, .error (.ServerError dbErrorMsg))
  else
    let rows := s.rows ++ [text]
    ({ n := n, rows := rows }, .ok rows.length)

/-- The state at process start: counter 0, no rows. -/
def initialDb : DbState := ⟨0, []⟩

/-- State after the first `k` sequential invocations of `add_row`, the
`k`-th invocation sending `texts k`. -/
def dbAfter (texts : Nat → RStr) : Nat → DbState
  | 0 => initialDb
  | k + 1 => (add_row (dbAfter texts k) (texts k)).1

/-- Result of the `k`-th sequential invocation (counting from 0). -/
def nthResult (texts : Nat → RStr) (k : Nat) :
    Except ServerFnErrorErr Nat :=
  (add_row (dbAfter texts k) (texts k)).2

/-- Whether an `Except` value is the error case. -/
def isErr {ε α : Type} : Except ε α → Bool
  | .error _ => true
  | .ok _ => false

/-! ### The custom TOML wire format

`Toml` / `TomlEncoded` from `src/app.rs`. The `toml` crate calls are
modelled concretely for the payload shapes this application serializes:
flat tables of string-valued fields, printed as `key = "value"` lines
with TOML basic-string escaping, and parsed back by a small TOML-subset
parser. The transport request/response objects are records carrying the
fields the code reads and writes. -/

/-- A character allowed in a TOML bare key. -/
def isBareKeyChar (c : Char) : Bool := c.isAlphanum || c == '-' || c == '_'

/-- Uppercase hexadecimal digit for `n < 16`. -/
def hexDigitChar (n : Nat) : Char :=
  if n < 10 then Char.ofNat (0x30 + n) else Char.ofNat (0x41 + (n - 10))

/-- TOML basic-string escaping of one character, as the `toml` crate
serializer emits it: named escapes for quote, backslash and the short
control characters, `\u00XX` for the remaining control characters. -/
def escChar (c : Char) : List Char :=
  if c == '\"' then ['\\', '\"']
  else if c == '\\' then ['\\', '\\']
  else if c == Char.ofNat 8 then ['\\', 'b']
  else if c == '\t' then ['\\', 't']
  else if c == '\n' then ['\\', 'n']
  else if c == Char.ofNat 12 then ['\\', 'f']
  else if c == '\r' then ['\\', 'r']
  else if c.toNat < 0x20 || c.toNat == 0x7f then
    ['\\', 'u', '0', '0', hexDigitChar (c.toNat / 16),
      hexDigitChar (c.toNat % 16)]
  else [c]

/-- Value of a hexadecimal digit character. -/
def hexVal? (c : Char) : Option Nat :=
  if 0x30 ≤ c.toNat ∧ c.toNat ≤ 0x39 then some (c.toNat - 0x30)
  else if 0x41 ≤ c.toNat ∧ c.toNat ≤ 0x46 then some (c.toNat - 0x41 + 10)
  else if 0x61 ≤ c.toNat ∧ c.toNat ≤ 0x66 then some (c.toNat - 0x61 + 10)
  else none

/-- Inverse of the named escapes. -/
def unescChar? (c : Char) : Option Char :=
  if c == 'b' then some (Char.ofNat 8)
  else if c == 't' then some '\t'
  else if c == 'n' then some '\n'
  else if c == 'f' then some (Char.ofNat 12)
  else if c == 'r' then some '\r'
  else if c == '\"' then some '\"'
  else if c == '\\' then some '\\'
  else none

/-- Parse the body of a TOML basic string (the opening quote already
consumed) up to its closing quote; raw control characters are rejected,
escapes are decoded. Returns the string and the unconsumed input. -/
def parseStringBody : List Char → Option (RStr × List Char)
  | [] => none
  | c :: rest =>
    if c == '\"' then some ([], rest)
    else if c == '\\' then
      match rest with
      | [] => none
      | e :: rest2 =>
        if e == 'u' then
          match rest2 with
          | d1 :: d2 :: d3 :: d4 :: rest3 =>
            match hexVal? d1, hexVal? d2, hexVal? d3, hexVal? d4 with
            | some a, some b, some a3, some a4 =>
              match parseStringBody rest3 with
              | some (s, r) =>
                some (Char.ofNat (((a * 16 + b) * 16 + a3) * 16 + a4) :: s, r)
              | none => none
            | _, _, _, _ => none
          | _ => none
        else
          match unescChar? e with
          | some u =>
            match parseStringBody rest2 with
            | some (s, r) => some (u :: s, r)
            | none => none
          | none => none
    else if c.toNat < 0x20 || c.toNat == 0x7f then none
    else
      match parseStringBody rest with
      | some (s, r) => some (c :: s, r)
      | none => none

/-- Drop leading spaces. -/
def skipSpaces (l : List Char) : List Char := l.dropWhile (fun c => c == ' ')

/-- Parse a TOML document of the subset this application exchanges: a
sequence of `key = "value"` lines. The fuel is an upper bound on the
input length. -/
def parseDoc : Nat → List Char → Option (List (RStr × RStr))
  | _, [] => some []
  | 0, _ :: _ => none
  | fuel + 1, input =>
    let key := input.takeWhile isBareKeyChar
    let r1 := input.dropWhile isBareKeyChar
    if key.isEmpty then none
    else
      match skipSpaces r1 with
      | '=' :: r2 =>
        match skipSpaces r2 with
        | '\"' :: r3 =>
          match parseStringBody r3 with
          | some (v, r4) =>
            match r4 with
            | [] => some [(key, v)]
            | '\n' :: r5 =>
              match parseDoc fuel r5 with
              | some fields => some ((key, v) :: fields)
              | none => none
            | _ => none
          | none => none
        | _ => none
      | _ => none

/-- `toml::from_str` on a document, down to its list of key/value pairs. -/
def decodeTable (s : RStr) : Option (List (RStr × RStr)) :=
  parseDoc s.length s

/-- First binding of a key in a parsed table. -/
def lookupField (key : RStr) : List (RStr × RStr) → Option RStr
  | [] => none
  | (k, v) :: rest => if k == key then some v else lookupField key rest

/-- Print a table of string fields the way `toml::to_string` does:
`key = "value"` lines with basic-string escaping. -/
def printFields : List (RStr × RStr) → RStr
  | [] => []
  | (k, v) :: rest =>
    k ++ ' ' :: '=' :: ' ' :: '\"' ::
      (v.flatMap escChar ++ '\"' :: '\n' :: printFields rest)

/-- `struct WhyNotResult` from `src/app.rs` (fields in declaration
order: `original`, then `modified`). -/
structure WhyNotResult where
  original : RStr
  modified : RStr
deriving DecidableEq, Repr

/-- `toml::to_string` on a `WhyNotResult`: serializes the two string
fields in declaration order; never fails on this type. -/
def toml_to_string_whynot (v : WhyNotResult) : Except RStr RStr :=
  .ok (printFields
    [("original".data, v.original), ("modified".data, v.modified)])

/-- `toml::from_str::<WhyNotResult>`: parse the table, then take the two
fields by name. -/
def toml_from_str_whynot (s : RStr) : Except RStr WhyNotResult :=
  match decodeTable s with
  | none => .error "TOML parse error".data
  | some fields =>
    match lookupField "original".data fields,
        lookupField "modified".data fields with
    | some o, some m => .ok ⟨o, m⟩
    | _, _ => .error "missing field".data

/-- `Format` from the server-function library (`FormatType::FORMAT_TYPE`
values). -/
inductive Format
  | Text
  | Binary
  | Stream
deriving DecidableEq, Repr

/-- The HTTP method of an encoding (`Encoding::METHOD`). -/
inductive Method
  | GET
  | POST
deriving DecidableEq, Repr

namespace Toml

/-- `impl ContentType for Toml` in `src/app.rs`. -/
def CONTENT_TYPE : RStr := "application/toml".data

/-- `impl FormatType for Toml` in `src/app.rs`. -/
def FORMAT_TYPE : Format := .Text

/-- `impl Encoding for Toml` in `src/app.rs`. -/
def METHOD : Method := .POST

end Toml

/-- A transport response: the fields that `try_from_string` writes and
`try_into_string` reads. -/
structure TransportResponse where
  contentType : RStr
  body : RStr
deriving DecidableEq, Repr

/-- A transport request: the fields that `try_new_post` writes and the
server side reads. -/
structure TransportRequest where
  path : RStr
  method : Method
  contentType : RStr
  accepts : RStr
  headers : List (RStr × RStr)
  body : RStr
deriving DecidableEq, Repr

/-- `TryRes::try_from_string`: build a response carrying the given
content type and string body. -/
def try_from_string (ct body : RStr) :
    Except ServerFnErrorErr TransportResponse :=
  .ok ⟨ct, body⟩

/-- `ClientRes::try_into_string`: read the response body as a string. -/
def try_into_string (r : TransportResponse) :
    Except ServerFnErrorErr RStr :=
  .ok r.body

/-- `Req::try_into_string` on the server side. -/
def req_try_into_string (r : TransportRequest) :
    Except ServerFnErrorErr RStr :=
  .ok r.body

/-- `ClientReq::try_new_post`: build a POST request with the given path,
content type, accept header and string body. -/
def try_new_post (path contentType accepts body : RStr) :
    Except ServerFnErrorErr TransportRequest :=
  .ok { path := path, method := .POST, contentType := contentType,
        accepts := accepts, headers := [], body := body }

/-- `IntoReq for TomlEncoded<T>`: serialize with the TOML encoder `ser`
(mapping encoder failure to `Serialization`), then POST the data under
the TOML content type. -/
def tomlIntoReq {α : Type} (ser : α → Except RStr RStr) (v : α)
    (path accepts : RStr) : Except ServerFnErrorErr TransportRequest :=
  match ser v with
  | .error e => .error (.Serialization e)
  | .ok data => try_new_post path Toml.CONTENT_TYPE accepts data

/-- `FromReq for TomlEncoded<T>`: read the request body, then decode with
the TOML decoder `de`, mapping decoder failure to `Args`. -/
def tomlFromReq {α : Type} (de : RStr → Except RStr α)
    (r : TransportRequest) : Except ServerFnErrorErr α :=
  match req_try_into_string r with
  | .error e => .error e
  | .ok data =>
    match de data with
    | .ok v => .ok v
    | .error e => .error (.Args e)

/-- `IntoRes for TomlEncoded<T>`: serialize with the TOML encoder `ser`
(mapping encoder failure to `Serialization`), then build the response
from the string under the TOML content type. -/
def tomlIntoRes {α : Type} (ser : α → Except RStr RStr) (v : α) :
    Except ServerFnErrorErr TransportResponse :=
  match ser v with
  | .error e => .error (.Serialization e)
  | .ok data => try_from_string Toml.CONTENT_TYPE data

/-- `FromRes for TomlEncoded<T>`: read the response body, then decode
with the TOML decoder `de`, mapping decoder failure to
`Deserialization`. -/
def tomlFromRes {α : Type} (de : RStr → Except RStr α)
    (r : TransportResponse) : Except ServerFnErrorErr α :=
  match try_into_string r with
  | .error e => .error e
  | .ok data =>
    match de data with
    | .ok v => .ok v
    | .error e => .error (.Deserialization e)

/-! ### The custom client -/

/-- The header name `CustomClient::send` injects. -/
def xCustomHeaderName : RStr := "X-Custom-Header".data

/-- The injected header value. -/
def xCustomHeaderValue : RStr := "foobar".data

/-- `Headers::append`: add one header pair at the end. -/
def appendHeader (r : TransportRequest) (name value : RStr) :
    TransportRequest :=
  { r with headers := r.headers ++ [(name, value)] }

/-- `CustomClient::send` from `src/app.rs`: append `X-Custom-Header:
foobar` to the request, then delegate to `BrowserClient::send`
(abstracted as the function `browserSend`). -/
def customClientSend {β : Type} (browserSend : TransportRequest → β)
    (req : TransportRequest) : β :=
  browserSend (appendHeader req xCustomHeaderName xCustomHeaderValue)

/-- Header extraction as `fn_with_custom_client` performs it
(`headers.get("X-Custom-Header")`): first value under the name. -/
def getHeader (r : TransportRequest) (name : RStr) : Option RStr :=
  lookupField name r.headers

/-! ### The rkyv error codec of `MyErrors`

`impl FromServerFnError for MyErrors` declares `type Encoder =
RkyvEncoding`: error values cross the network serialized by the derived
`rkyv` codec. The archive is modelled at tag/payload granularity (a
variant tag followed by the recursively encoded payload); string data is
carried as a length-prefixed run of scalar values. -/

/-- Serialized string: length, then the scalar values. -/
def serStr (s : RStr) : List Nat := s.length :: s.map Char.toNat

/-- Inverse of `serStr`; returns the remaining input. -/
def deStr : List Nat → Option (RStr × List Nat)
  | [] => none
  | n :: rest =>
    if n ≤ rest.length then
      some ((rest.take n).map Char.ofNat, rest.drop n)
    else none

/-- Variant tag of `InvalidArgument`. -/
def serInvalidArgument : InvalidArg → List Nat
  | .TooShort => [0]
  | .TooLong => [1]
  | .NotAscii => [2]

/-- Inverse of `serInvalidArgument`. -/
def deInvalidArgument : List Nat → Option (InvalidArg × List Nat)
  | 0 :: r => some (.TooShort, r)
  | 1 :: r => some (.TooLong, r)
  | 2 :: r => some (.NotAscii, r)
  | _ => none

/-- Variant tag and message of `ServerFnErrorErr`. -/
def serServerFnErrorErr : ServerFnErrorErr → List Nat
  | .Registration m => 0 :: serStr m
  | .Request m => 1 :: serStr m
  | .Response m => 2 :: serStr m
  | .ServerError m => 3 :: serStr m
  | .Deserialization m => 4 :: serStr m
  | .Serialization m => 5 :: serStr m
  | .Args m => 6 :: serStr m
  | .MissingArg m => 7 :: serStr m

/-- Inverse of `serServerFnErrorErr`. -/
def deServerFnErrorErr (l : List Nat) :
    Option (ServerFnErrorErr × List Nat) :=
  match l with
  | t :: r =>
    match deStr r with
    | none => none
    | some (m, r2) =>
      match t with
      | 0 => some (.Registration m, r2)
      | 1 => some (.Request m, r2)
      | 2 => some (.Response m, r2)
      | 3 => some (.ServerError m, r2)
      | 4 => some (.Deserialization m, r2)
      | 5 => some (.Serialization m, r2)
      | 6 => some (.Args m, r2)
      | 7 => some (.MissingArg m, r2)
      | _ => none
  | [] => none

/-- `FromServerFnError::ser` for `MyErrors` under its declared
`RkyvEncoding` encoder: variant tag, then the payload. -/
def rkyv_ser (e : MyErrors) : List Nat :=
  match e with
  | .InvalidArgument a => 0 :: serInvalidArgument a
  | .ServerFnError a => 1 :: serServerFnErrorErr a
  | .Other m => 2 :: serStr m

/-- Partial decoder for `MyErrors`. -/
def rkyv_de_partial (l : List Nat) : Option (MyErrors × List Nat) :=
  match l with
  | 0 :: r =>
    match deInvalidArgument r with
    | some (a, r2) => some (.InvalidArgument a, r2)
    | none => none
  | 1 :: r =>
    match deServerFnErrorErr r with
    | some (a, r2) => some (.ServerFnError a, r2)
    | none => none
  | 2 :: r =>
    match deStr r with
    | some (m, r2) => some (.Other m, r2)
    | none => none
  | _ => none

/-- `FromServerFnError::de` for `MyErrors`: decode the payload, falling
back to a `Deserialization` error value when it does not decode. -/
def rkyv_de (l : List Nat) : MyErrors :=
  match rkyv_de_partial l with
  | some (e, []) => e
  | _ =>
    .ServerFnError (.Deserialization "could not deserialize MyErrors".data)

/-! ### Concurrent invocations of `add_row`

Each in-flight `add_row` call performs two atomic actions: the
`fetch_add` on the `AtomicU8` counter, then either an immediate error
return (fetched value 2 mod 3) or the mutex-guarded critical section
(push onto `ROWS` and read the new length). Because the mutex is held
only for the read-modify-write and never across an await point, the
critical section is one atomic step, and a concurrent execution is an
arbitrary interleaving of these atomic steps. -/

/-- Progress of one in-flight `add_row` call. -/
inductive CallPhase
  | start
  | fetched (nthRun : Nat)
  | done (res : Except ServerFnErrorErr Nat)
deriving DecidableEq, Repr

/-- Global state of a concurrent execution: counter, `ROWS`, and every
call with its argument text and phase. -/
structure ConcState where
  n : Nat
  rows : List RStr
  calls : List (RStr × CallPhase)
deriving DecidableEq, Repr

/-- One atomic step of some pending call. -/
inductive ConcStep : ConcState → ConcState → Prop
  | fetch (s : ConcState) (i : Nat) (t : RStr)
      (h : s.calls[i]? = some (t, .start)) :
      ConcStep s
        { n := (s.n + 1) % 256, rows := s.rows,
          calls := s.calls.set i (t, .fetched s.n) }
  | finishErr (s : ConcState) (i : Nat) (t : RStr) (k : Nat)
      (h : s.calls[i]? = some (t, .fetched k)) (hk : k % 3 = 2) :
      ConcStep s
        { s with calls :=
            s.calls.set i (t, .done (.error (.ServerError dbErrorMsg))) }
  | finishOk (s : ConcState) (i : Nat) (t : RStr) (k : Nat)
      (h : s.calls[i]? = some (t, .fetched k)) (hk : ¬ k % 3 = 2) :
      ConcStep s
        ({ s with
            rows := s.rows ++ [t],
            calls := s.calls.set i (t, .done (.ok (s.rows.length + 1))) })

/-- Whether a call has completed successfully. -/
def isDoneOk : RStr × CallPhase → Bool
  | (_, .done (.ok _)) => true
  | _ => false

/-- Number of completed successful calls. -/
def countOk (calls : List (RStr × CallPhase)) : Nat :=
  calls.countP isDoneOk

/-- Initial state for a batch of concurrent calls with the given texts:
counter at `n0`, `ROWS` empty, every call not yet started. -/
def mkConcInit (n0 : Nat) (texts : List RStr) : ConcState :=
  { n := n0, rows := [], calls := texts.map fun t => (t, .start) }

end ServerFnsDemo

namespace ServerFnsDemo

theorem add_row_n (s : DbState) (t : RStr) :
    (add_row s t).1.n = (s.n + 1) % 256 := by
  unfold add_row
  by_cases h : s.n % 3 == 2 <;> simp [h]

theorem add_row_isErr (s : DbState) (t : RStr) :
    isErr (add_row s t).2 = (s.n % 3 == 2) := by
  unfold add_row
  by_cases h : s.n % 3 == 2 <;> simp [h, isErr]

theorem dbAfter_n (texts : Nat → RStr) (k : Nat) :
    (dbAfter texts k).n = k % 256 := by
  induction k with
  | zero => rfl
  | succ k ih =>
    show (add_row (dbAfter texts k) (texts k)).1.n = (k + 1) % 256
    rw [add_row_n, ih]
    omega

theorem hexVal_hexDigitChar : ∀ n : Nat, n < 16 →
    hexVal? (hexDigitChar n) = some n := by
  decide

theorem escChar_parse (c : Char) (l : List Char) (s : RStr)
    (r : List Char) (ih : parseStringBody l = some (s, r)) :
    parseStringBody (escChar c ++ l) = some (c :: s, r) := by
  unfold escChar
  split_ifs with h1 h2 h3 h4 h5 h6 h7 h8
  · rw [beq_iff_eq] at h1; subst h1
    unfold parseStringBody
    simp +decide [unescChar?, ih]
  · rw [beq_iff_eq] at h2; subst h2
    unfold parseStringBody
    simp +decide [unescChar?, ih]
  · rw [beq_iff_eq] at h3; subst h3
    unfold parseStringBody
    simp +decide [unescChar?, ih]
  · rw [beq_iff_eq] at h4; subst h4
    unfold parseStringBody
    simp +decide [unescChar?, ih]
  · rw [beq_iff_eq] at h5; subst h5
    unfold parseStringBody
    simp +decide [unescChar?, ih]
  · rw [beq_iff_eq] at h6; subst h6
    unfold parseStringBody
    simp +decide [unescChar?, ih]
  · rw [beq_iff_eq] at h7; subst h7
    unfold parseStringBody
    simp +decide [unescChar?, ih]
  · have hlt : c.toNat < 0x80 := by
      rcases Bool.or_eq_true_iff.mp h8 with h | h
      · have := of_decide_eq_true h; omega
      · have heq : c.toNat = 127 := by simpa using h
        omega
    have hdiv : c.toNat / 16 < 16 := by omega
    have hmod : c.toNat % 16 < 16 := by omega
    have harith :
        ((0 * 16 + 0) * 16 + c.toNat / 16) * 16 + c.toNat % 16 =
          c.toNat := by omega
    simp only [List.cons_append, List.nil_append]
    unfold parseStringBody
    simp +decide [show hexVal? '0' = some 0 by decide,
      hexVal_hexDigitChar _ hdiv, hexVal_hexDigitChar _ hmod,
      harith, ih, Char.ofNat_toNat]
    have hrec : c.toNat / 16 * 16 + c.toNat % 16 = c.toNat := by omega
    rw [hrec, Char.ofNat_toNat]
  · simp only [List.cons_append, List.nil_append]
    unfold parseStringBody
    simp [h1, h2, h8, ih]

theorem parseStringBody_print (s : RStr) (rest : List Char) :
    parseStringBody (s.flatMap escChar ++ ('\"' :: rest)) =
      some (s, rest) := by
  induction s with
  | nil =>
    unfold parseStringBody
    simp
  | cons c s ih =>
    rw [List.flatMap_cons, List.append_assoc]
    exact escChar_parse c _ s rest ih

theorem takeWhile_bareKey (k : RStr) (t : List Char)
    (hk : ∀ c ∈ k, isBareKeyChar c = true) :
    (k ++ ' ' :: t).takeWhile isBareKeyChar = k ∧
    (k ++ ' ' :: t).dropWhile isBareKeyChar = ' ' :: t := by
  induction k with
  | nil =>
    constructor <;> simp +decide [List.takeWhile_cons, List.dropWhile_cons]
  | cons c k ih =>
    have hc : isBareKeyChar c = true := hk c (by simp)
    have ih2 := ih fun c hcm => hk c (by simp [hcm])
    simp [List.takeWhile_cons, List.dropWhile_cons, hc, ih2.1, ih2.2]

theorem parseDoc_print :
    ∀ (fields : List (RStr × RStr)) (fuel : Nat),
      (∀ kv ∈ fields, kv.1 ≠ [] ∧ ∀ c ∈ kv.1, isBareKeyChar c = true) →
      (printFields fields).length ≤ fuel →
      parseDoc fuel (printFields fields) = some fields := by
  intro fields
  induction fields with
  | nil =>
    intro fuel _ _
    cases fuel <;> simp [printFields, parseDoc]
  | cons kv rest ih =>
    obtain ⟨k, v⟩ := kv
    intro fuel hkeys hfuel
    obtain ⟨hne, hkchars⟩ := hkeys (k, v) (List.mem_cons_self _ _)
    match fuel with
    | 0 =>
      exfalso
      simp [printFields] at hfuel
    | fuel + 1 =>
      have hrestkeys : ∀ kv ∈ rest, kv.1 ≠ [] ∧
          ∀ c ∈ kv.1, isBareKeyChar c = true :=
        fun kv hm => hkeys kv (List.mem_cons_of_mem _ hm)
      have hrestfuel : (printFields rest).length ≤ fuel := by
        simp [printFields] at hfuel
        omega
      cases k with
      | nil => exact absurd rfl hne
      | cons kc kt =>
        have hsplit := takeWhile_bareKey (kc :: kt)
          ('=' :: ' ' :: '\"' ::
            (v.flatMap escChar ++ '\"' :: '\n' :: printFields rest))
          hkchars
        show parseDoc (fuel + 1) (kc :: (kt ++ ' ' :: '=' :: ' ' :: '\"' ::
          (v.flatMap escChar ++ '\"' :: '\n' :: printFields rest))) = _
        unfold parseDoc
        rw [show kc :: (kt ++ ' ' :: '=' :: ' ' :: '\"' ::
          (v.flatMap escChar ++ '\"' :: '\n' :: printFields rest)) =
          (kc :: kt) ++ ' ' :: '=' :: ' ' :: '\"' ::
          (v.flatMap escChar ++ '\"' :: '\n' :: printFields rest) from rfl,
          hsplit.1, hsplit.2]
        simp +decide [skipSpaces, List.dropWhile_cons,
          parseStringBody_print v ('\n' :: printFields rest),
          ih fuel hrestkeys hrestfuel]

/-- C1: the example scenario for the validated uppercase operation:
"hello" (5 ASCII bytes) maps to "HELLO"; "hi" (2 bytes) fails with
`TooShort`; a 20-character ASCII input fails with `TooLong`; a non-ASCII
input (of admissible length) fails with `NotAscii`. -/
theorem c1_ascii_uppercase_examples :
    ascii_uppercase "hello".data = .ok "HELLO".data ∧
    ascii_uppercase "hi".data =
      .error (MyErrors.InvalidArgument .TooShort) ∧
    ascii_uppercase "aaaaaaaaaaaaaaaaaaaa".data =
      .error (MyErrors.InvalidArgument .TooLong) ∧
    ascii_uppercase "héllo".data =
      .error (MyErrors.InvalidArgument .NotAscii) := by
  refine ⟨?_, ?_, ?_, ?_⟩ <;> decide

/-- C9: lengths in `ascii_uppercase_inner` are UTF-8 bytes and the length
checks run before the ASCII check: every input under 5 bytes is
`TooShort` and every input over 15 bytes is `TooLong` regardless of
ASCII-ness, `NotAscii` occurs only for non-ASCII inputs of 5 to 15 bytes,
and byte length differs from character count (a 4-character input can
escape `TooShort`, an 8-character input can be `TooLong`). -/
theorem c9_validation_order :
    (∀ s : RStr, rustLen s < 5 →
      ascii_uppercase_inner s = .error .TooShort) ∧
    (∀ s : RStr, rustLen s > 15 →
      ascii_uppercase_inner s = .error .TooLong) ∧
    (∀ s : RStr, ascii_uppercase_inner s = .error .NotAscii →
      5 ≤ rustLen s ∧ rustLen s ≤ 15 ∧ rustIsAscii s = false) ∧
    (∃ s : RStr, s.length < 5 ∧
      ascii_uppercase_inner s ≠ .error .TooShort) ∧
    (∃ s : RStr, s.length ≤ 15 ∧
      ascii_uppercase_inner s = .error .TooLong) := by
  refine ⟨?_, ?_, ?_, ⟨"héll".data, by decide, by decide⟩,
    ⟨"éééééééé".data, by decide, by decide⟩⟩
  · intro s h
    simp [ascii_uppercase_inner, h]
  · intro s h
    have h5 : ¬ rustLen s < 5 := by omega
    simp [ascii_uppercase_inner, h, h5]
  · intro s h
    unfold ascii_uppercase_inner at h
    split_ifs at h with h1 h2 h3
    · simp at h
    · simp at h
    · exact ⟨by omega, by omega, by simpa using h3⟩

/-- Witness for C9 at concrete inputs. -/
theorem c9_validation_order_witness :
    ascii_uppercase_inner "hi".data = .error .TooShort ∧
    ascii_uppercase_inner "aaaaaaaaaaaaaaaaaaaa".data =
      .error .TooLong ∧
    (5 ≤ rustLen "héllo".data ∧ rustLen "héllo".data ≤ 15 ∧
      rustIsAscii "héllo".data = false) :=
  ⟨c9_validation_order.1 _ (by decide),
   c9_validation_order.2.1 _ (by decide),
   c9_validation_order.2.2.1 _ (by decide)⟩

/-- C4 (amended): the counter is an `AtomicU8`, so it wraps at 256: the
`n`-th invocation of `add_row` (counting from 0) errors iff
`(n mod 256) mod 3 = 2`; for the first 256 invocations this agrees with
`n mod 3 = 2`, but not afterwards. -/
theorem c4_add_row_failure_pattern (texts : Nat → RStr) (k : Nat) :
    (dbAfter texts k).n = k % 256 ∧
    (isErr (nthResult texts k) = true ↔ (k % 256) % 3 = 2) := by
  refine ⟨dbAfter_n texts k, ?_⟩
  show isErr (add_row (dbAfter texts k) (texts k)).2 = true ↔ _
  rw [add_row_isErr, dbAfter_n]
  simp

/-- C4 counterexample to the claim as stated: invocation 257 satisfies
`257 mod 3 = 2` yet succeeds, because the wrapped `AtomicU8` counter
reads 1 there. -/
theorem c4_add_row_claim_false_at_257 :
    257 % 3 = 2 ∧
    isErr (nthResult (fun _ => "row".data) 257) = false := by
  refine ⟨by decide, ?_⟩
  show isErr (add_row (dbAfter (fun _ => "row".data) 257) _).2 = false
  rw [add_row_isErr, dbAfter_n]
  decide

/-- C10: `add_row` is atomic with respect to failure: on the simulated
error `ROWS` is unchanged, and on success the new `ROWS` is the old list
with the text appended and the returned value is its length. -/
theorem c10_add_row_atomicity (s : DbState) (t : RStr) :
    (isErr (add_row s t).2 = true → (add_row s t).1.rows = s.rows) ∧
    (∀ v, (add_row s t).2 = .ok v →
      (add_row s t).1.rows = s.rows ++ [t] ∧
      v = (add_row s t).1.rows.length) := by
  unfold add_row
  by_cases h : s.n % 3 == 2 <;> simp [h, isErr]

/-- Witness for C10: a failing invocation (counter at 2) keeps `ROWS`
unchanged, a succeeding invocation (counter at 0) appends and returns
the new length. -/
theorem c10_add_row_atomicity_witness :
    (add_row ⟨2, []⟩ "x".data).1.rows = ([] : List RStr) ∧
    ((add_row ⟨0, []⟩ "x".data).1.rows = [] ++ ["x".data] ∧
      1 = (add_row ⟨0, []⟩ "x".data).1.rows.length) :=
  ⟨(c10_add_row_atomicity ⟨2, []⟩ "x".data).1 (by decide),
   (c10_add_row_atomicity ⟨0, []⟩ "x".data).2 1 (by decide)⟩

theorem toml_roundtrip_whynot (v : WhyNotResult) :
    toml_from_str_whynot (printFields
      [("original".data, v.original), ("modified".data, v.modified)]) =
      .ok v := by
  unfold toml_from_str_whynot decodeTable
  rw [parseDoc_print _ _ ?_ (le_refl _)]
  · simp +decide [lookupField]
  · rintro ⟨k, w⟩ hm
    simp at hm
    rcases hm with ⟨h1, h2⟩ | ⟨h1, h2⟩ <;> subst h1 <;>
      exact ⟨by simp, by simp +decide⟩

/-- C2: round-trip of the TOML codec on the response leg: whenever
`into_res` succeeds on a `WhyNotResult` value, `from_res` on the produced
response returns the same value. -/
theorem c2_toml_response_roundtrip (v : WhyNotResult)
    (r : TransportResponse)
    (h : tomlIntoRes toml_to_string_whynot v = .ok r) :
    tomlFromRes toml_from_str_whynot r = .ok v := by
  unfold tomlIntoRes toml_to_string_whynot try_from_string at h
  have hr := Except.ok.inj h
  subst hr
  unfold tomlFromRes try_into_string
  simp [toml_roundtrip_whynot v]

/-- Witness for C2 at a concrete payload. -/
theorem c2_toml_response_roundtrip_witness :
    tomlFromRes toml_from_str_whynot
      ⟨Toml.CONTENT_TYPE, printFields
        [("original".data, "a".data), ("modified".data, "b".data)]⟩ =
      .ok ⟨"a".data, "b".data⟩ :=
  c2_toml_response_roundtrip ⟨"a".data, "b".data⟩ _ rfl

/-- C3: on any request whose body the TOML decoder rejects, `from_req`
fails with the `Args` variant; on any response whose body it rejects,
`from_res` fails with the `Deserialization` variant; the two variants
are distinct. -/
theorem c3_args_vs_deserialization {α : Type}
    (de : RStr → Except RStr α) (req : TransportRequest)
    (res : TransportResponse) (e1 e2 : RStr)
    (hreq : de req.body = .error e1) (hres : de res.body = .error e2) :
    tomlFromReq de req = .error (.Args e1) ∧
    tomlFromRes de res = .error (.Deserialization e2) ∧
    ∀ m1 m2 : RStr,
      ServerFnErrorErr.Args m1 ≠ ServerFnErrorErr.Deserialization m2 := by
  refine ⟨?_, ?_, fun m1 m2 h => ServerFnErrorErr.noConfusion h⟩
  · unfold tomlFromReq req_try_into_string
    simp [hreq]
  · unfold tomlFromRes try_into_string
    simp [hres]

/-- Witness for C3: the body "not toml" is rejected by the decoder for
`WhyNotResult`, yielding `Args` on the request side and
`Deserialization` on the response side. -/
theorem c3_args_vs_deserialization_witness :
    tomlFromReq toml_from_str_whynot
      ⟨"/api/why_not".data, .POST, Toml.CONTENT_TYPE, Toml.CONTENT_TYPE,
        [], "not toml".data⟩ =
      .error (.Args "TOML parse error".data) ∧
    tomlFromRes toml_from_str_whynot
      ⟨Toml.CONTENT_TYPE, "not toml".data⟩ =
      .error (.Deserialization "TOML parse error".data) :=
  let h := c3_args_vs_deserialization toml_from_str_whynot
    ⟨"/api/why_not".data, .POST, Toml.CONTENT_TYPE, Toml.CONTENT_TYPE,
      [], "not toml".data⟩
    ⟨Toml.CONTENT_TYPE, "not toml".data⟩
    "TOML parse error".data "TOML parse error".data
    (by decide) (by decide)
  ⟨h.1, h.2.1⟩

/-- C6: the TOML wire format is content type "application/toml", Text
framing and POST method; `into_req` builds a POST request under that
content type whose body is the TOML serialization, and fails with
`Serialization` exactly when the encoder fails. -/
theorem c6_toml_format_and_request :
    Toml.CONTENT_TYPE = "application/toml".data ∧
    Toml.FORMAT_TYPE = Format.Text ∧
    Toml.METHOD = Method.POST ∧
    (∀ (α : Type) (ser : α → Except RStr RStr) (v : α)
        (path accepts : RStr),
      (∀ e, ser v = .error e →
        tomlIntoReq ser v path accepts = .error (.Serialization e)) ∧
      (∀ data, ser v = .ok data →
        tomlIntoReq ser v path accepts =
          .ok { path := path, method := .POST,
                contentType := Toml.CONTENT_TYPE, accepts := accepts,
                headers := [], body := data })) := by
  refine ⟨rfl, rfl, rfl, ?_⟩
  intro α ser v path accepts
  constructor
  · intro e he
    unfold tomlIntoReq
    rw [he]
  · intro data hd
    unfold tomlIntoReq try_new_post
    rw [hd]

/-- Witness for C6: a failing encoder yields `Serialization`; the real
encoder on a concrete `WhyNotResult` yields the POST request carrying
the printed TOML table. -/
theorem c6_toml_format_and_request_witness :
    tomlIntoReq (fun _ : Unit => .error "boom".data) ()
      "/p".data "text".data =
      .error (.Serialization "boom".data) ∧
    tomlIntoReq toml_to_string_whynot ⟨"a".data, "b".data⟩
      "/p".data "text".data =
      .ok { path := "/p".data, method := .POST,
            contentType := Toml.CONTENT_TYPE, accepts := "text".data,
            headers := [], body := printFields
              [("original".data, "a".data), ("modified".data, "b".data)] } :=
  ⟨(c6_toml_format_and_request.2.2.2 Unit _ () _ _).1 _ rfl,
   (c6_toml_format_and_request.2.2.2 WhyNotResult _ _ _ _).2 _ rfl⟩

theorem lookupField_append_self (key v : RStr) (l : List (RStr × RStr))
    (h : lookupField key l = none) :
    lookupField key (l ++ [(key, v)]) = some v := by
  induction l with
  | nil => simp [lookupField]
  | cons kv rest ih =>
    obtain ⟨k1, v1⟩ := kv
    rw [List.cons_append]
    unfold lookupField at h ⊢
    by_cases hk : k1 == key
    · rw [if_pos hk] at h
      cases h
    · rw [if_neg hk] at h ⊢
      exact ih h

/-- C8: `CustomClient::send` is `BrowserClient::send` after appending
the header `X-Custom-Header: foobar`; the request is otherwise unchanged
(path, method, content type, accepts, body), and the handler observes
the injected header. -/
theorem c8_custom_client_header_injection {β : Type}
    (browserSend : TransportRequest → β) (req : TransportRequest) :
    customClientSend browserSend req =
      browserSend (appendHeader req xCustomHeaderName xCustomHeaderValue) ∧
    (appendHeader req xCustomHeaderName xCustomHeaderValue).path =
      req.path ∧
    (appendHeader req xCustomHeaderName xCustomHeaderValue).method =
      req.method ∧
    (appendHeader req xCustomHeaderName xCustomHeaderValue).contentType =
      req.contentType ∧
    (appendHeader req xCustomHeaderName xCustomHeaderValue).accepts =
      req.accepts ∧
    (appendHeader req xCustomHeaderName xCustomHeaderValue).body =
      req.body ∧
    (appendHeader req xCustomHeaderName xCustomHeaderValue).headers =
      req.headers ++ [(xCustomHeaderName, xCustomHeaderValue)] ∧
    (xCustomHeaderName, xCustomHeaderValue) ∈
      (appendHeader req xCustomHeaderName xCustomHeaderValue).headers ∧
    (lookupField xCustomHeaderName req.headers = none →
      getHeader (appendHeader req xCustomHeaderName xCustomHeaderValue)
        xCustomHeaderName = some xCustomHeaderValue) := by
  refine ⟨rfl, rfl, rfl, rfl, rfl, rfl, rfl, by simp [appendHeader], ?_⟩
  intro h
  exact lookupField_append_self _ _ _ h

/-- Witness for C8 on a concrete request without prior headers. -/
theorem c8_custom_client_header_injection_witness :
    getHeader (appendHeader
      ⟨"/api/fn_with_custom_client".data, .POST, [], [], [], []⟩
      xCustomHeaderName xCustomHeaderValue) xCustomHeaderName =
      some xCustomHeaderValue :=
  (c8_custom_client_header_injection id
    ⟨"/api/fn_with_custom_client".data, .POST, [], [], [], []⟩
    ).2.2.2.2.2.2.2.2 (by decide)

theorem deStr_serStr (s : RStr) (r : List Nat) :
    deStr (serStr s ++ r) = some (s, r) := by
  have hlen : s.length = (s.map Char.toNat).length := by simp
  show deStr (s.length :: (s.map Char.toNat ++ r)) = _
  rw [hlen]
  simp only [deStr]
  rw [if_pos (by simp), List.take_left, List.drop_left, List.map_map]
  have hco : Char.ofNat ∘ Char.toNat = id := funext Char.ofNat_toNat
  rw [hco, List.map_id]

theorem deInv_serInv (a : InvalidArg) (r : List Nat) :
    deInvalidArgument (serInvalidArgument a ++ r) = some (a, r) := by
  cases a <;> rfl

theorem deSFE_serSFE (a : ServerFnErrorErr) (r : List Nat) :
    deServerFnErrorErr (serServerFnErrorErr a ++ r) = some (a, r) := by
  cases a <;>
    simp [serServerFnErrorErr, deServerFnErrorErr, deStr_serStr]

theorem rkyv_de_partial_ser (e : MyErrors) (r : List Nat) :
    rkyv_de_partial (rkyv_ser e ++ r) = some (e, r) := by
  cases e <;>
    simp [rkyv_ser, rkyv_de_partial, deInv_serInv, deSFE_serSFE,
      deStr_serStr]

theorem rkyv_roundtrip (e : MyErrors) : rkyv_de (rkyv_ser e) = e := by
  have h := rkyv_de_partial_ser e []
  rw [List.append_nil] at h
  unfold rkyv_de
  rw [h]

/-- C5: error fidelity end to end: the declared rkyv encoder of
`MyErrors` round-trips every error value (so the variant survives the
network boundary), and the handler really produces
`MyErrors::InvalidArgument(TooShort)`, which survives encode/decode
unchanged. -/
theorem c5_error_fidelity :
    (∀ e : MyErrors, rkyv_de (rkyv_ser e) = e) ∧
    ascii_uppercase "hi".data =
      .error (MyErrors.InvalidArgument .TooShort) ∧
    rkyv_de (rkyv_ser (MyErrors.InvalidArgument .TooShort)) =
      MyErrors.InvalidArgument .TooShort :=
  ⟨rkyv_roundtrip, by decide, rkyv_roundtrip _⟩

theorem countP_set {α : Type} (l : List α) (i : Nat) (a b : α)
    (q : α → Bool) (h : l[i]? = some a) :
    (l.set i b).countP q + (if q a then 1 else 0) =
      l.countP q + (if q b then 1 else 0) := by
  induction l generalizing i with
  | nil => simp at h
  | cons x xs ih =>
    cases i with
    | zero =>
      simp at h
      subst h
      simp [List.set, List.countP_cons]
      omega
    | succ i =>
      simp at h
      have := ih i h
      simp [List.set, List.countP_cons]
      omega

theorem concStep_inv {s s' : ConcState} (hstep : ConcStep s s')
    (hinv : s.rows.length = countOk s.calls ∧
      ∀ t r, (t, CallPhase.done (.ok r)) ∈ s.calls → t ∈ s.rows) :
    s'.rows.length = countOk s'.calls ∧
    ∀ t r, (t, CallPhase.done (.ok r)) ∈ s'.calls → t ∈ s'.rows := by
  obtain ⟨hlen, hmem⟩ := hinv
  cases hstep with
  | fetch i t h =>
    have hc := countP_set s.calls i (t, .start) (t, .fetched s.n)
      isDoneOk h
    constructor
    · show s.rows.length = countOk (s.calls.set i (t, .fetched s.n))
      unfold countOk at hlen ⊢
      simp [isDoneOk] at hc
      omega
    · intro t' r hmem'
      rcases List.mem_or_eq_of_mem_set hmem' with hm | he
      · exact hmem t' r hm
      · cases he
  | finishErr i t k h hk =>
    have hc := countP_set s.calls i (t, .fetched k)
      (t, .done (.error (.ServerError dbErrorMsg))) isDoneOk h
    constructor
    · show s.rows.length = countOk
        (s.calls.set i (t, .done (.error (.ServerError dbErrorMsg))))
      unfold countOk at hlen ⊢
      simp [isDoneOk] at hc
      omega
    · intro t' r hmem'
      rcases List.mem_or_eq_of_mem_set hmem' with hm | he
      · exact hmem t' r hm
      · cases he
  | finishOk i t k h hk =>
    have hc := countP_set s.calls i (t, .fetched k)
      (t, .done (.ok (s.rows.length + 1))) isDoneOk h
    constructor
    · show (s.rows ++ [t]).length = countOk
        (s.calls.set i (t, .done (.ok (s.rows.length + 1))))
      unfold countOk at hlen ⊢
      simp [isDoneOk] at hc
      simp [List.length_append]
      omega
    · intro t' r hmem'
      rcases List.mem_or_eq_of_mem_set hmem' with hm | he
      · exact List.mem_append_left _ (hmem t' r hm)
      · injection he with h1 h2
        subst h1
        exact List.mem_append_right _ (by simp)

theorem concInit_countOk (texts : List RStr) :
    countOk (texts.map fun t => (t, CallPhase.start)) = 0 := by
  induction texts with
  | nil => rfl
  | cons a ts ih =>
    simp only [List.map_cons]
    unfold countOk at ih ⊢
    rw [List.countP_cons]
    simp [isDoneOk, ih]

/-- C7: no concurrent execution of `add_row` calls loses an update: in
every state reachable by interleaving the atomic steps of a batch of
calls (the mutex makes each push-and-read-length a single atomic step,
and the lock is not held across the await), the length of `ROWS` equals
the number of successfully completed calls, and each successful call's
text is present in `ROWS`. -/
theorem c7_no_lost_updates (n0 : Nat) (texts : List RStr)
    (s : ConcState)
    (hrun : Relation.ReflTransGen ConcStep (mkConcInit n0 texts) s) :
    s.rows.length = countOk s.calls ∧
    ∀ t r, (t, CallPhase.done (.ok r)) ∈ s.calls → t ∈ s.rows := by
  induction hrun with
  | refl =>
    constructor
    · show (mkConcInit n0 texts).rows.length = _
      simp [mkConcInit, concInit_countOk]
    · intro t r hm
      simp only [mkConcInit] at hm
      obtain ⟨x, _, he⟩ := List.mem_map.mp hm
      injection he with h1 h2
      cases h2
  | tail _ hstep ih => exact concStep_inv hstep ih

/-- Witness for C7: a concrete interleaved execution of two calls (both
fetch first, then both enter the critical section) ends with two rows
and two successful calls. -/
theorem c7_no_lost_updates_witness :
    (⟨2, ["a".data, "b".data],
      [("a".data, CallPhase.done (.ok 1)),
       ("b".data, CallPhase.done (.ok 2))]⟩ : ConcState).rows.length =
      countOk
        [("a".data, CallPhase.done (.ok 1)),
         ("b".data, CallPhase.done (.ok 2))] :=
  (c7_no_lost_updates 0 ["a".data, "b".data] _
    (Relation.ReflTransGen.tail
      (Relation.ReflTransGen.tail
        (Relation.ReflTransGen.tail
          (Relation.ReflTransGen.tail Relation.ReflTransGen.refl
            (ConcStep.fetch (mkConcInit 0 ["a".data, "b".data]) 0
              "a".data rfl))
          (ConcStep.fetch _ 1 "b".data rfl))
        (ConcStep.finishOk _ 0 "a".data 0 rfl (by decide)))
      (ConcStep.finishOk _ 1 "b".data 1 rfl (by decide)))).1

end ServerFnsDemo
